import Mathlib

/-!
Verification development for the family-tree relationship derivation engine.

The definitions below are a shallow embedding of the TypeScript sources:
  * `src/types/relationship.ts` — the relationship taxonomy (explicit and
    derived relationship kinds and their on-disk string tags);
  * `src/utils/relationship-helpers.ts` — `getRelationshipLabel` and the
    classification predicates;
  * `src/utils/relationship-resolver.ts` — the `RelationshipResolver` class.

TypeScript arrays become `List`, `Array.prototype.find` becomes `List.find?`,
`filter`/`map`/`forEach`-with-push become `List.filter`/`List.map`/`List.foldl`
or `List.filterMap`, the JavaScript `Set` of suppression keys becomes a
`List String` queried with `contains` (only membership is ever used), and
template-string keys become explicit `String.append`s.  Optional fields of
`Person` and `Relationship` that the resolver never reads (dates, notes,
metadata, photo references) are omitted from the records.  The label
table's record access models full JavaScript member-access semantics,
including the fall-through to the truthy properties inherited from
`Object.prototype` before the `||` fallback.
-/

namespace FamilyTree

/-- Explicit relationship kinds, from `enum RelationshipType`. -/
inductive RelationshipType where
  | Parent
  | Spouse
  | Partner
  | AdoptiveParent
  | StepParent
  | Guardian
  | Godparent
  | Other
deriving DecidableEq, Repr

/-- Derived relationship kinds, from `enum DerivedRelationshipType`. -/
inductive DerivedRelationshipType where
  | Child
  | Sibling
  | Grandparent
  | Grandchild
  | Uncle
  | Aunt
  | Nephew
  | Niece
  | Cousin
  | ParentInLaw
  | ChildInLaw
  | SiblingInLaw
  | StepSibling
deriving DecidableEq, Repr

/-- The string tag of each explicit kind (the enum's string value in the
source, which is also the persisted representation and the piece that is
interpolated into suppression keys). -/
def RelationshipType.tag : RelationshipType → String
  | .Parent => "parent"
  | .Spouse => "spouse"
  | .Partner => "partner"
  | .AdoptiveParent => "adoptive-parent"
  | .StepParent => "step-parent"
  | .Guardian => "guardian"
  | .Godparent => "godparent"
  | .Other => "other"

/-- The string tag of each derived kind. -/
def DerivedRelationshipType.tag : DerivedRelationshipType → String
  | .Child => "child"
  | .Sibling => "sibling"
  | .Grandparent => "grandparent"
  | .Grandchild => "grandchild"
  | .Uncle => "uncle"
  | .Aunt => "aunt"
  | .Nephew => "nephew"
  | .Niece => "niece"
  | .Cousin => "cousin"
  | .ParentInLaw => "parent-in-law"
  | .ChildInLaw => "child-in-law"
  | .SiblingInLaw => "sibling-in-law"
  | .StepSibling => "step-sibling"

/-- `AllRelationshipTypes = RelationshipType | DerivedRelationshipType`.
In the source both enums are string enums with disjoint tag sets, so the
union with structural equality is a faithful model of the runtime values. -/
inductive AllRelationshipTypes where
  | ofExplicit (t : RelationshipType)
  | ofDerived (d : DerivedRelationshipType)
deriving DecidableEq, Repr

/-- The label table of `getRelationshipLabel`, keyed by the enum string
tags exactly as in the source record literal. -/
def relationshipLabels : List (String × String) :=
  [ ("parent", "Parent")
  , ("spouse", "Spouse")
  , ("partner", "Partner")
  , ("adoptive-parent", "Adoptive Parent")
  , ("step-parent", "Step-parent")
  , ("guardian", "Guardian")
  , ("godparent", "Godparent")
  , ("other", "Other")
  , ("child", "Child")
  , ("sibling", "Sibling")
  , ("grandparent", "Grandparent")
  , ("grandchild", "Grandchild")
  , ("uncle", "Uncle")
  , ("aunt", "Aunt")
  , ("nephew", "Nephew")
  , ("niece", "Niece")
  , ("cousin", "Cousin")
  , ("parent-in-law", "Parent-in-law")
  , ("child-in-law", "Child-in-law")
  , ("sibling-in-law", "Sibling-in-law")
  , ("step-sibling", "Step-sibling")
  ]

/-- The property names a JavaScript object literal inherits from
`Object.prototype` (per the ECMAScript standard): eleven function-valued
properties plus the `__proto__` accessor.  A computed member access
`labels[key]` on the record literal falls through to these when `key` is
not an own property, and every one of their values (a function object, or
the prototype object itself for `__proto__`) is truthy. -/
def objectPrototypeProperties : List String :=
  [ "constructor"
  , "hasOwnProperty"
  , "isPrototypeOf"
  , "propertyIsEnumerable"
  , "toLocaleString"
  , "toString"
  , "valueOf"
  , "__defineGetter__"
  , "__defineSetter__"
  , "__lookupGetter__"
  , "__lookupSetter__"
  , "__proto__"
  ]

/-- A value observable as the result of
`labels[relationship] || relationship`: either a string (an own-property
label, or the echoed argument), or the truthy non-string value inherited
from `Object.prototype` under the given key. -/
inductive LabelResult where
  | str (s : String)
  | inheritedProperty (key : String)
deriving DecidableEq, Repr

/-- `getRelationshipLabel`: `labels[relationship] || relationship` with
JavaScript member-access semantics.  At runtime the argument is a string
(possibly from a corrupted file).  An own-property hit returns the fixed
label (all labels are non-empty strings, hence truthy, so `||` keeps
them).  A miss on the own properties falls through to the prototype
chain: for an `Object.prototype` property name the access yields the
inherited function/object, which is truthy, so `||` returns that
non-string value.  Only when the access yields `undefined` (falsy) does
`||` echo the raw argument. -/
def getRelationshipLabel (relationship : String) : LabelResult :=
  match relationshipLabels.lookup relationship with
  | some label => .str label
  | none =>
    if objectPrototypeProperties.contains relationship then
      .inheritedProperty relationship
    else .str relationship

/-- `isBidirectionalRelationship` from the helper module. -/
def isBidirectionalRelationship (t : RelationshipType) : Bool :=
  t == .Spouse || t == .Partner || t == .Other

/-- `isParentChildRelationship` from the helper module. -/
def isParentChildRelationship (t : RelationshipType) : Bool :=
  t == .Parent || t == .AdoptiveParent || t == .StepParent

/-- `Person`, restricted to the fields the resolver reads (`id`) plus the
required display name. -/
structure Person where
  id : String
  displayName : String
deriving DecidableEq, Repr

/-- `Relationship`, restricted to the fields the resolver reads. -/
structure Relationship where
  id : String
  fromId : String
  toId : String
  type : RelationshipType
deriving DecidableEq, Repr

/-- One element of the array returned by `getRelationshipsForPerson`. -/
structure RelationshipEntry where
  person : Person
  relationship : AllRelationshipTypes
  isDerived : Bool
deriving DecidableEq, Repr

/-- `getParents`: edges of parent-like type whose `toId` is the person,
mapped through a people lookup, dropping unresolved ids
(`.map(find).filter(Boolean)` = `filterMap find?`). -/
def getParents (people : List Person) (relationships : List Relationship)
    (personId : String) : List Person :=
  (relationships.filter (fun rel =>
      rel.toId == personId &&
        (rel.type == RelationshipType.Parent ||
          rel.type == RelationshipType.AdoptiveParent ||
          rel.type == RelationshipType.StepParent))).filterMap
    (fun rel => people.find? (fun p => p.id == rel.fromId))

/-- `getChildren`: edges of parent-like type whose `fromId` is the person. -/
def getChildren (people : List Person) (relationships : List Relationship)
    (personId : String) : List Person :=
  (relationships.filter (fun rel =>
      rel.fromId == personId &&
        (rel.type == RelationshipType.Parent ||
          rel.type == RelationshipType.AdoptiveParent ||
          rel.type == RelationshipType.StepParent))).filterMap
    (fun rel => people.find? (fun p => p.id == rel.toId))

/-- `getSpouse`: first Spouse/Partner edge incident to the person, then a
people lookup on its far end (`|| null` becomes `Option`). -/
def getSpouse (people : List Person) (relationships : List Relationship)
    (personId : String) : Option Person :=
  match relationships.find? (fun rel =>
      (rel.fromId == personId || rel.toId == personId) &&
        (rel.type == RelationshipType.Spouse ||
          rel.type == RelationshipType.Partner)) with
  | none => none
  | some spouseRel =>
    let spouseId := if spouseRel.fromId == personId then spouseRel.toId
      else spouseRel.fromId
    people.find? (fun p => p.id == spouseId)

/-- `getSiblings`: people (other than the person) whose parent list shares
an id with the person's parent list; the early return on an empty parent
list is kept from the source. -/
def getSiblings (people : List Person) (relationships : List Relationship)
    (personId : String) : List Person :=
  let parents := getParents people relationships personId
  if parents.isEmpty then []
  else
    people.filter (fun person =>
      person.id != personId &&
        (let personParents := getParents people relationships person.id
         parents.any (fun parent =>
           personParents.any (fun personParent => personParent.id == parent.id))))

/-- The kind shown for an edge on which the person is `fromId`: the switch
maps the three parent-like kinds to `Child` and every other kind to
itself. -/
def explicitFromKind : RelationshipType → AllRelationshipTypes
  | .Parent | .AdoptiveParent | .StepParent =>
      .ofDerived DerivedRelationshipType.Child
  | t => .ofExplicit t

/-- One step of the explicit `forEach` of `getRelationshipsForPerson`,
threading the results array.  On the `toId` side the source's switch shows
`rel.type` itself in every case; only the three bidirectional kinds first
check whether the same counterpart/kind pair is already in `results`
(`alreadyAdded`) and skip the push if so. -/
def explicitStep (people : List Person) (personId : String)
    (results : List RelationshipEntry) (rel : Relationship) :
    List RelationshipEntry :=
  if rel.fromId == personId then
    match people.find? (fun p => p.id == rel.toId) with
    | none => results
    | some person =>
      results ++ [⟨person, explicitFromKind rel.type, false⟩]
  else if rel.toId == personId then
    match people.find? (fun p => p.id == rel.fromId) with
    | none => results
    | some person =>
      if (rel.type == RelationshipType.Spouse ||
            rel.type == RelationshipType.Partner ||
            rel.type == RelationshipType.Other) &&
          results.any (fun r =>
            r.person.id == person.id &&
              r.relationship == AllRelationshipTypes.ofExplicit rel.type) then
        results
      else
        results ++ [⟨person, .ofExplicit rel.type, false⟩]
  else results

/-- The suppression-key set built at the top of `getDerivedRelationships`:
for each edge touching the person, `` `${otherId}-${rel.type}` `` (and, when
the person is the parent side of a parent-like edge, also
`` `${rel.toId}-child` ``).  A JavaScript `Set` queried only with `has` is
modelled as a `List String` queried with `contains`. -/
def explicitKeys (relationships : List Relationship) (personId : String) :
    List String :=
  relationships.foldl (fun keys rel =>
    if rel.fromId == personId then
      if rel.type == RelationshipType.Parent ||
          rel.type == RelationshipType.AdoptiveParent ||
          rel.type == RelationshipType.StepParent then
        keys ++ [rel.toId ++ "-" ++ rel.type.tag, rel.toId ++ "-child"]
      else
        keys ++ [rel.toId ++ "-" ++ rel.type.tag]
    else if rel.toId == personId then
      keys ++ [rel.fromId ++ "-" ++ rel.type.tag]
    else keys) []

/-- `getDerivedRelationships`: siblings, then grandparents, then
grandchildren, in the source's push order.  Sibling and grandparent
candidates are dropped when their suppression key is in the explicit-key
set; the grandchild branch performs no such check. -/
def getDerivedRelationships (people : List Person)
    (relationships : List Relationship) (personId : String) :
    List RelationshipEntry :=
  let explicitRelationships := explicitKeys relationships personId
  let sibResults :=
    (getSiblings people relationships personId).filterMap (fun sibling =>
      if explicitRelationships.contains (sibling.id ++ "-sibling") then none
      else some ⟨sibling, .ofDerived DerivedRelationshipType.Sibling, true⟩)
  let parents := getParents people relationships personId
  let gpResults :=
    parents.flatMap (fun parent =>
      (getParents people relationships parent.id).filterMap (fun grandparent =>
        if explicitRelationships.contains (grandparent.id ++ "-grandparent")
        then none
        else some ⟨grandparent, .ofDerived DerivedRelationshipType.Grandparent,
          true⟩))
  let children := getChildren people relationships personId
  let gcResults :=
    children.flatMap (fun child =>
      (getChildren people relationships child.id).map (fun grandchild =>
        ⟨grandchild, .ofDerived DerivedRelationshipType.Grandchild, true⟩))
  sibResults ++ gpResults ++ gcResults

/-- `getRelationshipsForPerson`: the explicit pass over all edges followed
by the derived pass. -/
def getRelationshipsForPerson (people : List Person)
    (relationships : List Relationship) (personId : String) :
    List RelationshipEntry :=
  relationships.foldl (explicitStep people personId) [] ++
    getDerivedRelationships people relationships personId

/-! ## Basic lemmas about the people lookup -/

/-- With unique ids, looking a member's id up in the people sequence finds
exactly that member. -/
theorem find?_id_of_nodup (people : List Person) (q : Person)
    (hnd : (people.map Person.id).Nodup) (hq : q ∈ people) :
    people.find? (fun p => p.id == q.id) = some q := by
  induction people with
  | nil => cases hq
  | cons p t ih =>
    rw [List.map_cons, List.nodup_cons] at hnd
    rcases List.mem_cons.mp hq with h | h
    · subst h
      simp [List.find?]
    · have hne : (p.id == q.id) = false := by
        refine beq_eq_false_iff_ne.mpr ?_
        intro hid
        exact hnd.1 (hid ▸ List.mem_map_of_mem Person.id h)

      rw [List.find?]
      rw [hne]
      exact ih hnd.2 h

/-- A successful people lookup returns a person carrying the looked-up id. -/
theorem find?_id_eq {people : List Person} {x : String} {q : Person}
    (h : people.find? (fun p => p.id == x) = some q) : q.id = x := by
  have h2 := List.find?_some h
  simpa using h2

/-! ## Membership lemmas for the supporting queries -/

/-- Every person returned by `getParents` comes from the people sequence. -/
theorem getParents_subset {people : List Person} {rels : List Relationship}
    {pid : String} {q : Person} (h : q ∈ getParents people rels pid) :
    q ∈ people := by
  obtain ⟨r, _, hfind⟩ := List.mem_filterMap.mp h
  exact List.mem_of_find?_eq_some hfind

/-- Every person returned by `getChildren` comes from the people sequence. -/
theorem getChildren_subset {people : List Person} {rels : List Relationship}
    {pid : String} {q : Person} (h : q ∈ getChildren people rels pid) :
    q ∈ people := by
  obtain ⟨r, _, hfind⟩ := List.mem_filterMap.mp h
  exact List.mem_of_find?_eq_some hfind

/-- A parent-type edge into `pid` whose parent side resolves puts that
parent into `getParents` (ids unique). -/
theorem mem_getParents {people : List Person} {rels : List Relationship}
    {pid : String} {P : Person} {r : Relationship}
    (hnd : (people.map Person.id).Nodup) (hP : P ∈ people)
    (hr : r ∈ rels) (hto : r.toId = pid) (hfrom : r.fromId = P.id)
    (hty : (r.type == RelationshipType.Parent ||
      r.type == RelationshipType.AdoptiveParent ||
      r.type == RelationshipType.StepParent) = true) :
    P ∈ getParents people rels pid := by
  refine List.mem_filterMap.mpr ⟨r, List.mem_filter.mpr ⟨hr, ?_⟩, ?_⟩
  · rw [hto, hty]
    simp
  · rw [hfrom]
    exact find?_id_of_nodup people P hnd hP

/-- A parent-type edge out of `pid` whose child side resolves puts that
child into `getChildren` (ids unique). -/
theorem mem_getChildren {people : List Person} {rels : List Relationship}
    {pid : String} {C : Person} {r : Relationship}
    (hnd : (people.map Person.id).Nodup) (hC : C ∈ people)
    (hr : r ∈ rels) (hfrom : r.fromId = pid) (hto : r.toId = C.id)
    (hty : (r.type == RelationshipType.Parent ||
      r.type == RelationshipType.AdoptiveParent ||
      r.type == RelationshipType.StepParent) = true) :
    C ∈ getChildren people rels pid := by
  refine List.mem_filterMap.mpr ⟨r, List.mem_filter.mpr ⟨hr, ?_⟩, ?_⟩
  · rw [hfrom, hty]
    simp
  · rw [hto]
    exact find?_id_of_nodup people C hnd hC

/-! ## Lemmas about the explicit pass -/

/-- Each explicit step only appends to the results array. -/
theorem explicitStep_eq_append (people : List Person) (pid : String)
    (acc : List RelationshipEntry) (r : Relationship) :
    ∃ t, explicitStep people pid acc r = acc ++ t := by
  unfold explicitStep
  repeat' split
  all_goals first
    | exact ⟨[], (List.append_nil acc).symm⟩
    | exact ⟨_, rfl⟩

/-- Entries survive an explicit step. -/
theorem explicitStep_mem_mono {people : List Person} {pid : String}
    {acc : List RelationshipEntry} {r : Relationship} {e : RelationshipEntry}
    (he : e ∈ acc) : e ∈ explicitStep people pid acc r := by
  obtain ⟨t, ht⟩ := explicitStep_eq_append people pid acc r
  rw [ht]
  exact List.mem_append_left t he

/-- Entries survive the whole explicit fold. -/
theorem foldl_explicit_mem_mono {people : List Person} {pid : String}
    {e : RelationshipEntry} :
    ∀ (l : List Relationship) (acc : List RelationshipEntry), e ∈ acc →
      e ∈ l.foldl (explicitStep people pid) acc := by
  intro l
  induction l with
  | nil => intro acc he; exact he
  | cons r t ih =>
    intro acc he
    exact ih _ (explicitStep_mem_mono he)

/-- An edge on which the person is the `fromId` side and whose far end
resolves always contributes its entry to the explicit fold. -/
theorem foldl_explicit_mem_of_from {people : List Person} {pid : String}
    {r : Relationship} {q : Person}
    (hfrom : (r.fromId == pid) = true)
    (hfind : people.find? (fun p => p.id == r.toId) = some q) :
    ∀ (l : List Relationship) (acc : List RelationshipEntry), r ∈ l →
      (⟨q, explicitFromKind r.type, false⟩ : RelationshipEntry) ∈
        l.foldl (explicitStep people pid) acc := by
  intro l
  induction l with
  | nil => intro acc hr; cases hr
  | cons x t ih =>
    intro acc hr
    rcases List.mem_cons.mp hr with h | h
    · subst h
      refine foldl_explicit_mem_mono t _ ?_
      unfold explicitStep
      rw [if_pos hfrom, hfind]
      exact List.mem_append_right _ (List.mem_singleton.mpr rfl)
    · exact ih _ h

/-- An edge on which the person is the `toId` side, of a kind that is not
bidirectional, always contributes its entry to the explicit fold when the
far end resolves. -/
theorem foldl_explicit_mem_of_to {people : List Person} {pid : String}
    {r : Relationship} {q : Person}
    (hfrom : (r.fromId == pid) = false)
    (hto : (r.toId == pid) = true)
    (hsym : (r.type == RelationshipType.Spouse ||
      r.type == RelationshipType.Partner ||
      r.type == RelationshipType.Other) = false)
    (hfind : people.find? (fun p => p.id == r.fromId) = some q) :
    ∀ (l : List Relationship) (acc : List RelationshipEntry), r ∈ l →
      (⟨q, .ofExplicit r.type, false⟩ : RelationshipEntry) ∈
        l.foldl (explicitStep people pid) acc := by
  intro l
  induction l with
  | nil => intro acc hr; cases hr
  | cons x t ih =>
    intro acc hr
    rcases List.mem_cons.mp hr with h | h
    · subst h
      refine foldl_explicit_mem_mono t _ ?_
      unfold explicitStep
      rw [hfrom, if_neg (by simp), if_pos hto, hfind, hsym]
      simp
    · exact ih _ h

/-! ## C1 -/

/-- C1: a Parent edge A→B (both persons present, ids unique, distinct ids)
makes B a child of A, A a parent of B, and produces the explicit
`{B, Child, isDerived:false}` and `{A, Parent, isDerived:false}` entries in
the two persons' relationship lists. -/
theorem parent_edge_symmetry (people : List Person) (rels : List Relationship)
    (A B : Person) (r : Relationship)
    (hnd : (people.map Person.id).Nodup)
    (hA : A ∈ people) (hB : B ∈ people) (hAB : A.id ≠ B.id)
    (hr : r ∈ rels) (hty : r.type = RelationshipType.Parent)
    (hfrom : r.fromId = A.id) (hto : r.toId = B.id) :
    B ∈ getChildren people rels A.id ∧
    A ∈ getParents people rels B.id ∧
    (⟨B, .ofDerived DerivedRelationshipType.Child, false⟩ :
      RelationshipEntry) ∈ getRelationshipsForPerson people rels A.id ∧
    (⟨A, .ofExplicit RelationshipType.Parent, false⟩ :
      RelationshipEntry) ∈ getRelationshipsForPerson people rels B.id := by
  have hfindB : people.find? (fun p => p.id == r.toId) = some B := by
    rw [hto]
    exact find?_id_of_nodup people B hnd hB
  have hfindA : people.find? (fun p => p.id == r.fromId) = some A := by
    rw [hfrom]
    exact find?_id_of_nodup people A hnd hA
  refine ⟨?_, ?_, ?_, ?_⟩
  · exact mem_getChildren hnd hB hr hfrom hto (by rw [hty]; rfl)
  · exact mem_getParents hnd hA hr hto hfrom (by rw [hty]; rfl)
  · refine List.mem_append_left _ ?_
    have h2 : (r.fromId == A.id) = true := by
      rw [hfrom]
      exact beq_self_eq_true A.id
    have h3 := foldl_explicit_mem_of_from h2 hfindB rels [] hr
    rw [hty] at h3
    exact h3
  · refine List.mem_append_left _ ?_
    have h2 : (r.fromId == B.id) = false := by
      rw [hfrom]
      exact beq_eq_false_iff_ne.mpr hAB
    have h4 : (r.toId == B.id) = true := by
      rw [hto]
      exact beq_self_eq_true B.id
    have h3 := foldl_explicit_mem_of_to h2 h4 (by rw [hty]; rfl) hfindA
      rels [] hr
    rw [hty] at h3
    exact h3

/-- Witness for C1 on a concrete two-person snapshot. -/
theorem parent_edge_symmetry_witness :
    (⟨"b", "B"⟩ : Person) ∈
      getChildren [⟨"a", "A"⟩, ⟨"b", "B"⟩]
        [⟨"e1", "a", "b", RelationshipType.Parent⟩] "a" ∧
    (⟨"a", "A"⟩ : Person) ∈
      getParents [⟨"a", "A"⟩, ⟨"b", "B"⟩]
        [⟨"e1", "a", "b", RelationshipType.Parent⟩] "b" ∧
    (⟨⟨"b", "B"⟩, .ofDerived DerivedRelationshipType.Child, false⟩ :
      RelationshipEntry) ∈
      getRelationshipsForPerson [⟨"a", "A"⟩, ⟨"b", "B"⟩]
        [⟨"e1", "a", "b", RelationshipType.Parent⟩] "a" ∧
    (⟨⟨"a", "A"⟩, .ofExplicit RelationshipType.Parent, false⟩ :
      RelationshipEntry) ∈
      getRelationshipsForPerson [⟨"a", "A"⟩, ⟨"b", "B"⟩]
        [⟨"e1", "a", "b", RelationshipType.Parent⟩] "b" :=
  parent_edge_symmetry [⟨"a", "A"⟩, ⟨"b", "B"⟩]
    [⟨"e1", "a", "b", RelationshipType.Parent⟩]
    ⟨"a", "A"⟩ ⟨"b", "B"⟩ ⟨"e1", "a", "b", RelationshipType.Parent⟩
    (by decide) (by decide) (by decide) (by decide) (by decide)
    rfl rfl rfl

/-! ## C2 -/

/-- C2: `getSiblings` returns exactly the other people sharing a recorded
parent (by id); an empty parent list yields no siblings; and sibling-ship
is symmetric between people in the snapshot. -/
theorem getSiblings_spec (people : List Person) (rels : List Relationship) :
    (∀ (pid : String) (q : Person),
      q ∈ getSiblings people rels pid ↔
        q ∈ people ∧ q.id ≠ pid ∧
          ∃ par ∈ getParents people rels pid,
            ∃ qq ∈ getParents people rels q.id, qq.id = par.id) ∧
    (∀ pid : String, getParents people rels pid = [] →
      getSiblings people rels pid = []) ∧
    (∀ A B : Person, A ∈ people → B ∈ people →
      (B ∈ getSiblings people rels A.id ↔ A ∈ getSiblings people rels B.id)) := by
  have hchar : ∀ (pid : String) (q : Person),
      q ∈ getSiblings people rels pid ↔
        q ∈ people ∧ q.id ≠ pid ∧
          ∃ par ∈ getParents people rels pid,
            ∃ qq ∈ getParents people rels q.id, qq.id = par.id := by
    intro pid q
    unfold getSiblings
    by_cases hp : (getParents people rels pid).isEmpty
    · rw [if_pos hp]
      rw [List.isEmpty_iff] at hp
      simp [hp]
    · rw [if_neg hp]
      rw [List.mem_filter]
      simp only [Bool.and_eq_true, bne_iff_ne, List.any_eq_true, beq_iff_eq,
        ne_eq, and_assoc]
  refine ⟨hchar, ?_, ?_⟩
  · intro pid h
    unfold getSiblings
    rw [h]
    rfl
  · intro A B hA hB
    rw [hchar A.id B, hchar B.id A]
    constructor
    · rintro ⟨-, hne, p, hp, q, hq, h⟩
      exact ⟨hA, Ne.symm hne, q, hq, p, hp, h.symm⟩
    · rintro ⟨-, hne, p, hp, q, hq, h⟩
      exact ⟨hB, Ne.symm hne, q, hq, p, hp, h.symm⟩

/-- Witness for C2: with edges p→a and p→b, b is a sibling of a. -/
theorem getSiblings_spec_witness :
    (⟨"b", "B"⟩ : Person) ∈
      getSiblings [⟨"p", "P"⟩, ⟨"a", "A"⟩, ⟨"b", "B"⟩]
        [⟨"e1", "p", "a", RelationshipType.Parent⟩,
         ⟨"e2", "p", "b", RelationshipType.Parent⟩] "a" :=
  ((getSiblings_spec [⟨"p", "P"⟩, ⟨"a", "A"⟩, ⟨"b", "B"⟩]
      [⟨"e1", "p", "a", RelationshipType.Parent⟩,
       ⟨"e2", "p", "b", RelationshipType.Parent⟩]).1 "a" ⟨"b", "B"⟩).mpr
    (by decide)

/-! ## C9 -/

/-- C9: `getSpouse` commits to the first Spouse/Partner edge incident to
the person; if that edge's counterpart id resolves to nobody, the result is
`none`, regardless of any later edges. -/
theorem getSpouse_first_match (people : List Person)
    (rels : List Relationship) (pid : String) (r : Relationship)
    (hfind : rels.find? (fun rel =>
        (rel.fromId == pid || rel.toId == pid) &&
          (rel.type == RelationshipType.Spouse ||
            rel.type == RelationshipType.Partner)) = some r)
    (hmiss : people.find? (fun p =>
        p.id == (if r.fromId == pid then r.toId else r.fromId)) = none) :
    getSpouse people rels pid = none := by
  unfold getSpouse
  rw [hfind]
  exact hmiss

/-- Witness for C9: the first spouse edge of "a" points at the missing id
"ghost", so `getSpouse` is `none` even though a later edge resolves to
"b". -/
theorem getSpouse_first_match_witness :
    getSpouse [⟨"a", "A"⟩, ⟨"b", "B"⟩]
      [⟨"s1", "a", "ghost", RelationshipType.Spouse⟩,
       ⟨"s2", "a", "b", RelationshipType.Spouse⟩] "a" = none :=
  getSpouse_first_match [⟨"a", "A"⟩, ⟨"b", "B"⟩]
    [⟨"s1", "a", "ghost", RelationshipType.Spouse⟩,
     ⟨"s2", "a", "b", RelationshipType.Spouse⟩] "a"
    ⟨"s1", "a", "ghost", RelationshipType.Spouse⟩ (by decide) (by decide)

/-! ## C8 -/

/-- C8: evaluating `getRelationshipLabel` at the failing input
`"toString"`.  The tag `"toString"` is outside both enumerations, yet the
record access hits the truthy function inherited from
`Object.prototype`, so the code returns that non-string value instead of
echoing the raw kind string the claim (and the spec's fallback design)
promises.  Enumeration tags still map to their fixed labels, and a string
hitting neither the own properties nor the prototype is echoed, as the
claim states for those inputs. -/
theorem getRelationshipLabel_prototype_leak :
    getRelationshipLabel "toString" =
      LabelResult.inheritedProperty "toString" ∧
    getRelationshipLabel "toString" ≠ LabelResult.str "toString" ∧
    "toString" ∉ relationshipLabels.map Prod.fst ∧
    getRelationshipLabel RelationshipType.Parent.tag =
      LabelResult.str "Parent" ∧
    getRelationshipLabel RelationshipType.StepParent.tag =
      LabelResult.str "Step-parent" ∧
    getRelationshipLabel DerivedRelationshipType.Grandchild.tag =
      LabelResult.str "Grandchild" ∧
    getRelationshipLabel "corrupted-kind" =
      LabelResult.str "corrupted-kind" := by
  decide

/-! ## Shape of explicit and derived entries -/

/-- A single explicit step leaves the accumulator alone or appends one
explicit-pass entry: a resolved person, `isDerived = false`, and a kind
produced by the `fromId` or `toId` switch for this edge. -/
theorem explicitStep_mem {people : List Person} {pid : String}
    {acc : List RelationshipEntry} {r : Relationship} {e : RelationshipEntry}
    (he : e ∈ explicitStep people pid acc r) :
    e ∈ acc ∨ (e.person ∈ people ∧ e.isDerived = false ∧
      (e.relationship = explicitFromKind r.type ∨
        e.relationship = .ofExplicit r.type)) := by
  unfold explicitStep at he
  split at he
  · split at he
    · exact Or.inl he
    · rcases List.mem_append.mp he with h | h
      · exact Or.inl h
      · rename_i person hfind
        have hx := List.mem_singleton.mp h
        subst hx
        exact Or.inr ⟨List.mem_of_find?_eq_some hfind, rfl, Or.inl rfl⟩
  · split at he
    · split at he
      · exact Or.inl he
      · rename_i person hfind
        split at he
        · exact Or.inl he
        · rcases List.mem_append.mp he with h | h
          · exact Or.inl h
          · have hx := List.mem_singleton.mp h
            subst hx
            exact Or.inr ⟨List.mem_of_find?_eq_some hfind, rfl, Or.inr rfl⟩
    · exact Or.inl he

/-- The `fromId`-side switch produces either the derived `Child` kind or an
explicit kind. -/
theorem explicitFromKind_cases (t : RelationshipType) :
    (∃ t', explicitFromKind t = .ofExplicit t') ∨
      explicitFromKind t = .ofDerived DerivedRelationshipType.Child := by
  cases t
  all_goals first
    | exact Or.inr rfl
    | exact Or.inl ⟨_, rfl⟩

/-- Every entry of the explicit fold (beyond the initial accumulator) has
a resolved person, `isDerived = false`, and an explicit kind or the derived
`Child` kind. -/
theorem foldl_explicit_mem {people : List Person} {pid : String} :
    ∀ (l : List Relationship) (acc : List RelationshipEntry)
      (e : RelationshipEntry), e ∈ l.foldl (explicitStep people pid) acc →
      e ∈ acc ∨ (e.person ∈ people ∧ e.isDerived = false ∧
        ((∃ t, e.relationship = .ofExplicit t) ∨
          e.relationship = .ofDerived DerivedRelationshipType.Child)) := by
  intro l
  induction l with
  | nil => intro acc e he; exact Or.inl he
  | cons r t ih =>
    intro acc e he
    rcases ih _ e he with h | h
    · rcases explicitStep_mem h with h2 | h2
      · exact Or.inl h2
      · refine Or.inr ⟨h2.1, h2.2.1, ?_⟩
        rcases h2.2.2 with h3 | h3
        · rcases explicitFromKind_cases r.type with ⟨t', ht'⟩ | ht'
          · exact Or.inl ⟨t', h3.trans ht'⟩
          · exact Or.inr (h3.trans ht')
        · exact Or.inl ⟨r.type, h3⟩
    · exact Or.inr h

/-- Every person returned by `getSiblings` comes from the people
sequence. -/
theorem getSiblings_subset {people : List Person} {rels : List Relationship}
    {pid : String} {q : Person} (h : q ∈ getSiblings people rels pid) :
    q ∈ people := by
  simp only [getSiblings] at h
  split at h
  · cases h
  · exact (List.mem_filter.mp h).1

/-- Every derived entry has a resolved person, `isDerived = true`, and one
of the three derived kinds the resolver actually computes. -/
theorem getDerived_mem {people : List Person} {rels : List Relationship}
    {pid : String} {e : RelationshipEntry}
    (he : e ∈ getDerivedRelationships people rels pid) :
    e.person ∈ people ∧ e.isDerived = true ∧
      (e.relationship = .ofDerived DerivedRelationshipType.Sibling ∨
        e.relationship = .ofDerived DerivedRelationshipType.Grandparent ∨
        e.relationship = .ofDerived DerivedRelationshipType.Grandchild) := by
  unfold getDerivedRelationships at he
  rcases List.mem_append.mp he with h | h
  rcases List.mem_append.mp h with h1 | h1
  · obtain ⟨sib, hsib, hsome⟩ := List.mem_filterMap.mp h1
    split at hsome
    · cases hsome
    · cases hsome
      exact ⟨getSiblings_subset hsib, rfl, Or.inl rfl⟩
  · obtain ⟨parent, hparent, h2⟩ := List.mem_flatMap.mp h1
    obtain ⟨gp, hgp, hsome⟩ := List.mem_filterMap.mp h2
    split at hsome
    · cases hsome
    · cases hsome
      exact ⟨getParents_subset hgp, rfl, Or.inr (Or.inl rfl)⟩
  · obtain ⟨child, hchild, h2⟩ := List.mem_flatMap.mp h
    obtain ⟨gc, hgc, heq⟩ := List.mem_map.mp h2
    subst heq
    exact ⟨getChildren_subset hgc, rfl, Or.inr (Or.inr rfl)⟩

/-! ## C6 -/

/-- C6: the result of `getRelationshipsForPerson` splits into the explicit
fold followed by the derived pass — all explicit entries (isDerived =
false) precede all derived entries (isDerived = true) — and the explicit
fold only ever appends per edge in the original iteration order, with no
sort. -/
theorem explicit_precede_derived (people : List Person)
    (rels : List Relationship) (pid : String) :
    ∃ xs ys,
      getRelationshipsForPerson people rels pid = xs ++ ys ∧
      (∀ e ∈ xs, e.isDerived = false) ∧
      (∀ e ∈ ys, e.isDerived = true) ∧
      xs = rels.foldl (explicitStep people pid) [] ∧
      ys = getDerivedRelationships people rels pid ∧
      (∀ (acc : List RelationshipEntry) (r : Relationship),
        ∃ t, explicitStep people pid acc r = acc ++ t) := by
  refine ⟨_, _, rfl, ?_, ?_, rfl, rfl, explicitStep_eq_append people pid⟩
  · intro e he
    rcases foldl_explicit_mem rels [] e he with h | h
    · cases h
    · exact h.2.1
  · intro e he
    exact (getDerived_mem he).2.1

/-- Witness for C6 on a concrete snapshot. -/
theorem explicit_precede_derived_witness :
    ∃ xs ys,
      getRelationshipsForPerson [⟨"a", "A"⟩, ⟨"b", "B"⟩]
        [⟨"e1", "a", "b", RelationshipType.Parent⟩] "a" = xs ++ ys ∧
      (∀ e ∈ xs, e.isDerived = false) ∧
      (∀ e ∈ ys, e.isDerived = true) ∧
      xs = [⟨"e1", "a", "b", RelationshipType.Parent⟩].foldl
        (explicitStep [⟨"a", "A"⟩, ⟨"b", "B"⟩] "a") [] ∧
      ys = getDerivedRelationships [⟨"a", "A"⟩, ⟨"b", "B"⟩]
        [⟨"e1", "a", "b", RelationshipType.Parent⟩] "a" ∧
      (∀ (acc : List RelationshipEntry) (r : Relationship),
        ∃ t, explicitStep [⟨"a", "A"⟩, ⟨"b", "B"⟩] "a" acc r = acc ++ t) :=
  explicit_precede_derived [⟨"a", "A"⟩, ⟨"b", "B"⟩]
    [⟨"e1", "a", "b", RelationshipType.Parent⟩] "a"

/-! ## C7 -/

/-- C7: every query is a total function (all the definitions above are
total Lean functions); an edge whose counterpart does not resolve
contributes no entry (every returned person is a member of the people
sequence), while an edge whose `fromId` is the queried id — present in the
people sequence or not — still contributes its entry whenever the
counterpart resolves. -/
theorem dangling_reference_tolerance (people : List Person)
    (rels : List Relationship) :
    (∀ (pid : String), ∀ e ∈ getRelationshipsForPerson people rels pid,
      e.person ∈ people) ∧
    (∀ (pid : String), ∀ q ∈ getParents people rels pid, q ∈ people) ∧
    (∀ (pid : String), ∀ q ∈ getChildren people rels pid, q ∈ people) ∧
    (∀ (pid : String), ∀ q ∈ getSiblings people rels pid, q ∈ people) ∧
    (∀ (pid : String) (q : Person), getSpouse people rels pid = some q →
      q ∈ people) ∧
    (∀ (pid : String), ∀ r ∈ rels, r.fromId = pid →
      ∀ q : Person, people.find? (fun p => p.id == r.toId) = some q →
        (⟨q, explicitFromKind r.type, false⟩ : RelationshipEntry) ∈
          getRelationshipsForPerson people rels pid) := by
  refine ⟨?_, ?_, ?_, ?_, ?_, ?_⟩
  · intro pid e he
    rcases List.mem_append.mp he with h | h
    · rcases foldl_explicit_mem rels [] e h with h2 | h2
      · cases h2
      · exact h2.1
    · exact (getDerived_mem h).1
  · intro pid q hq
    exact getParents_subset hq
  · intro pid q hq
    exact getChildren_subset hq
  · intro pid q hq
    exact getSiblings_subset hq
  · intro pid q hq
    unfold getSpouse at hq
    split at hq
    · cases hq
    · exact List.mem_of_find?_eq_some hq
  · intro pid r hr hfrom q hfind
    refine List.mem_append_left _ ?_
    exact foldl_explicit_mem_of_from (by rw [hfrom]; exact beq_self_eq_true pid)
      hfind rels [] hr

/-- Witness for C7: the queried id "zombie" is absent from the people
sequence and one of its edges dangles, yet the resolving edge still
produces its entry. -/
theorem dangling_reference_tolerance_witness :
    (⟨⟨"b", "B"⟩, explicitFromKind RelationshipType.Parent, false⟩ :
      RelationshipEntry) ∈
      getRelationshipsForPerson [⟨"b", "B"⟩]
        [⟨"e1", "zombie", "ghost", RelationshipType.Parent⟩,
         ⟨"e2", "zombie", "b", RelationshipType.Parent⟩] "zombie" :=
  (dangling_reference_tolerance [⟨"b", "B"⟩]
      [⟨"e1", "zombie", "ghost", RelationshipType.Parent⟩,
       ⟨"e2", "zombie", "b", RelationshipType.Parent⟩]).2.2.2.2.2 "zombie"
    ⟨"e2", "zombie", "b", RelationshipType.Parent⟩ (by decide) rfl
    ⟨"b", "B"⟩ (by decide)

/-! ## Suppression keys

The derived pass suppresses a sibling or grandparent candidate when the
string `otherId ++ "-sibling"` / `otherId ++ "-grandparent"` is among the
explicit keys.  Explicit keys always end in an explicit-kind tag or in
`"-child"`, and none of those suffixes is compatible with
`"-grandparent"`, so the grandparent check can never fire, whatever the
ids are.  The next lemmas make that precise. -/

/-- Two lists whose right parts differ at some position counted from the
end are unequal, whatever is prepended on the left. -/
theorem append_right_ne {s t : List Char} (i : Nat)
    (his : i < s.length) (hit : i < t.length)
    (hne : s.reverse[i]? ≠ t.reverse[i]?) :
    ∀ a b : List Char, a ++ s ≠ b ++ t := by
  intro a b h
  apply hne
  have h' : s.reverse ++ a.reverse = t.reverse ++ b.reverse := by
    rw [← List.reverse_append, ← List.reverse_append, h]
  have hs : (s.reverse ++ a.reverse)[i]? = s.reverse[i]? :=
    List.getElem?_append_left (by simpa using his)
  have ht : (t.reverse ++ b.reverse)[i]? = t.reverse[i]? :=
    List.getElem?_append_left (by simpa using hit)
  rw [← hs, ← ht, h']

/-- String version of `append_right_ne`. -/
theorem string_append_right_ne {s t : String} (i : Nat)
    (his : i < s.data.length) (hit : i < t.data.length)
    (hne : s.data.reverse[i]? ≠ t.data.reverse[i]?) :
    ∀ a b : String, a ++ s ≠ b ++ t := by
  intro a b h
  have h2 : a.data ++ s.data = b.data ++ t.data := by
    rw [← String.data_append, ← String.data_append, h]
  exact append_right_ne i his hit hne a.data b.data h2

/-- Every suppression-set key is some id followed by `"-" ++ tag` for an
explicit kind, or by `"-child"`. -/
theorem explicitKeys_shape {rels : List Relationship} {pid : String} :
    ∀ k ∈ explicitKeys rels pid,
      (∃ (x : String) (t : RelationshipType), k = x ++ ("-" ++ t.tag)) ∨
        ∃ x : String, k = x ++ "-child" := by
  have hstep : ∀ (acc : List String) (rel : Relationship),
      ∀ k ∈ (fun keys rel =>
          if rel.fromId == pid then
            if rel.type == RelationshipType.Parent ||
                rel.type == RelationshipType.AdoptiveParent ||
                rel.type == RelationshipType.StepParent then
              keys ++ [rel.toId ++ "-" ++ rel.type.tag, rel.toId ++ "-child"]
            else
              keys ++ [rel.toId ++ "-" ++ rel.type.tag]
          else if rel.toId == pid then
            keys ++ [rel.fromId ++ "-" ++ rel.type.tag]
          else keys) acc rel,
        k ∈ acc ∨
          (∃ (x : String) (t : RelationshipType), k = x ++ ("-" ++ t.tag)) ∨
            ∃ x : String, k = x ++ "-child" := by
    intro acc rel k hk
    dsimp only at hk
    split at hk
    · split at hk
      · rcases List.mem_append.mp hk with h | h
        · exact Or.inl h
        · rcases List.mem_cons.mp h with h2 | h2
          · exact Or.inr (Or.inl ⟨rel.toId, rel.type,
              h2.trans (String.append_assoc _ _ _)⟩)
          · rw [List.mem_singleton.mp h2]
            exact Or.inr (Or.inr ⟨rel.toId, rfl⟩)
      · rcases List.mem_append.mp hk with h | h
        · exact Or.inl h
        · rw [List.mem_singleton.mp h]
          exact Or.inr (Or.inl ⟨rel.toId, rel.type,
            String.append_assoc _ _ _⟩)
    · split at hk
      · rcases List.mem_append.mp hk with h | h
        · exact Or.inl h
        · rw [List.mem_singleton.mp h]
          exact Or.inr (Or.inl ⟨rel.fromId, rel.type,
            String.append_assoc _ _ _⟩)
      · exact Or.inl hk
  have hfold : ∀ (l : List Relationship) (acc : List String),
      (∀ k ∈ acc,
        (∃ (x : String) (t : RelationshipType), k = x ++ ("-" ++ t.tag)) ∨
          ∃ x : String, k = x ++ "-child") →
      ∀ k ∈ l.foldl (fun keys rel =>
          if rel.fromId == pid then
            if rel.type == RelationshipType.Parent ||
                rel.type == RelationshipType.AdoptiveParent ||
                rel.type == RelationshipType.StepParent then
              keys ++ [rel.toId ++ "-" ++ rel.type.tag, rel.toId ++ "-child"]
            else
              keys ++ [rel.toId ++ "-" ++ rel.type.tag]
          else if rel.toId == pid then
            keys ++ [rel.fromId ++ "-" ++ rel.type.tag]
          else keys) acc,
        (∃ (x : String) (t : RelationshipType), k = x ++ ("-" ++ t.tag)) ∨
          ∃ x : String, k = x ++ "-child" := by
    intro l
    induction l with
    | nil => intro acc hacc k hk; exact hacc k hk
    | cons rel t ih =>
      intro acc hacc k hk
      refine ih _ ?_ k hk
      intro k2 hk2
      rcases hstep acc rel k2 hk2 with h | h
      · exact hacc k2 h
      · exact h
  intro k hk
  exact hfold rels [] (by intro k2 hk2; cases hk2) k hk

/-- The grandparent suppression key never matches an explicit key: none of
the explicit-kind suffixes (nor `"-child"`) is right-compatible with
`"-grandparent"`. -/
theorem grandparent_key_not_mem (rels : List Relationship) (pid g : String) :
    ((explicitKeys rels pid).contains (g ++ "-grandparent")) = false := by
  rw [List.contains_eq_any_beq, List.any_eq_false]
  intro k hk
  rw [beq_iff_eq]
  intro hEq
  rcases explicitKeys_shape k hk with ⟨x, t, ht⟩ | ⟨x, hx⟩
  · rw [ht] at hEq
    cases t
    case Parent =>
      exact string_append_right_ne 6 (by decide) (by decide) (by decide)
        g x hEq
    case Spouse =>
      exact string_append_right_ne 0 (by decide) (by decide) (by decide)
        g x hEq
    case Partner =>
      exact string_append_right_ne 0 (by decide) (by decide) (by decide)
        g x hEq
    case AdoptiveParent =>
      exact string_append_right_ne 6 (by decide) (by decide) (by decide)
        g x hEq
    case StepParent =>
      exact string_append_right_ne 6 (by decide) (by decide) (by decide)
        g x hEq
    case Guardian =>
      exact string_append_right_ne 0 (by decide) (by decide) (by decide)
        g x hEq
    case Godparent =>
      exact string_append_right_ne 7 (by decide) (by decide) (by decide)
        g x hEq
    case Other =>
      exact string_append_right_ne 0 (by decide) (by decide) (by decide)
        g x hEq
  · rw [hx] at hEq
    exact string_append_right_ne 0 (by decide) (by decide) (by decide)
      g x hEq

/-! ## Counting derived entries -/

/-- Counting over a `flatMap` is the sum of the per-element counts. -/
theorem countP_flatMap_eq {α β : Type} (p : β → Bool) (f : α → List β) :
    ∀ l : List α,
      (l.flatMap f).countP p = (l.map (fun a => (f a).countP p)).sum := by
  intro l
  induction l with
  | nil => rfl
  | cons x t ih =>
    rw [List.flatMap_cons, List.countP_append, List.map_cons, List.sum_cons,
      ih]

/-- Because the grandparent suppression key never matches, the grandparent
branch's `filterMap` is a plain `map`. -/
theorem gp_filterMap_eq_map (rels : List Relationship) (pid : String)
    (l : List Person) :
    l.filterMap (fun grandparent =>
      if (explicitKeys rels pid).contains (grandparent.id ++ "-grandparent")
      then none
      else some (⟨grandparent,
        .ofDerived DerivedRelationshipType.Grandparent, true⟩ :
          RelationshipEntry)) =
    l.map (fun grandparent =>
      (⟨grandparent, .ofDerived DerivedRelationshipType.Grandparent, true⟩ :
        RelationshipEntry)) := by
  induction l with
  | nil => rfl
  | cons x t ih =>
    have hnot : ((explicitKeys rels pid).contains
        (x.id ++ "-grandparent")) = false :=
      grandparent_key_not_mem rels pid x.id
    simp only [List.filterMap_cons, hnot, Bool.false_eq_true, if_false]
    rw [List.map_cons, ih]

/-- The explicit fold contributes no entry with a derived kind other than
`Child`. -/
theorem foldl_countP_derived_eq_zero (people : List Person)
    (rels : List Relationship) (pid gid : String)
    (d : DerivedRelationshipType) (hd : d ≠ DerivedRelationshipType.Child) :
    (rels.foldl (explicitStep people pid) []).countP
      (fun e => e.person.id == gid &&
        e.relationship == AllRelationshipTypes.ofDerived d) = 0 := by
  rw [List.countP_eq_zero]
  intro e he
  rcases foldl_explicit_mem rels [] e he with h | h
  · cases h
  · rcases h.2.2 with ⟨t, ht⟩ | ht
    · simp [ht]
    · rw [ht]
      simp only [Bool.and_eq_true, beq_iff_eq]
      rintro ⟨-, h2⟩
      injection h2 with h3
      exact hd h3.symm

/-- The derived pass contributes no entry with an explicit kind. -/
theorem derived_countP_explicit_eq_zero (people : List Person)
    (rels : List Relationship) (pid bId : String) (t : RelationshipType) :
    (getDerivedRelationships people rels pid).countP
      (fun e => e.person.id == bId &&
        e.relationship == AllRelationshipTypes.ofExplicit t) = 0 := by
  rw [List.countP_eq_zero]
  intro e he
  rcases (getDerived_mem he).2.2 with h | h | h <;> simp [h]

/-- The sibling branch contributes no entry of another derived kind. -/
theorem sibPass_countP_eq_zero (people : List Person)
    (rels : List Relationship) (pid gid : String)
    (d : DerivedRelationshipType)
    (hd : d ≠ DerivedRelationshipType.Sibling) :
    ((getSiblings people rels pid).filterMap (fun sibling =>
      if (explicitKeys rels pid).contains (sibling.id ++ "-sibling") then none
      else some (⟨sibling, .ofDerived DerivedRelationshipType.Sibling, true⟩ :
        RelationshipEntry))).countP
      (fun e => e.person.id == gid &&
        e.relationship == AllRelationshipTypes.ofDerived d) = 0 := by
  rw [List.countP_eq_zero]
  intro e he
  obtain ⟨s, hs, hsome⟩ := List.mem_filterMap.mp he
  split at hsome
  · cases hsome
  · cases hsome
    simp only [Bool.and_eq_true, beq_iff_eq]
    rintro ⟨-, h2⟩
    injection h2 with h3
    exact hd h3.symm

/-- The grandparent branch contributes no entry of another derived kind. -/
theorem gpPass_countP_eq_zero (people : List Person)
    (rels : List Relationship) (pid gid : String)
    (d : DerivedRelationshipType)
    (hd : d ≠ DerivedRelationshipType.Grandparent) :
    (((getParents people rels pid).flatMap (fun parent =>
      (getParents people rels parent.id).filterMap (fun grandparent =>
        if (explicitKeys rels pid).contains
            (grandparent.id ++ "-grandparent") then none
        else some (⟨grandparent,
          .ofDerived DerivedRelationshipType.Grandparent, true⟩ :
            RelationshipEntry))))).countP
      (fun e => e.person.id == gid &&
        e.relationship == AllRelationshipTypes.ofDerived d) = 0 := by
  rw [List.countP_eq_zero]
  intro e he
  obtain ⟨parent, hparent, h2⟩ := List.mem_flatMap.mp he
  obtain ⟨gp, hgp, hsome⟩ := List.mem_filterMap.mp h2
  split at hsome
  · cases hsome
  · cases hsome
    simp only [Bool.and_eq_true, beq_iff_eq]
    rintro ⟨-, h2⟩
    injection h2 with h3
    exact hd h3.symm

/-- The grandchild branch contributes no entry of another derived kind. -/
theorem gcPass_countP_eq_zero (people : List Person)
    (rels : List Relationship) (pid gid : String)
    (d : DerivedRelationshipType)
    (hd : d ≠ DerivedRelationshipType.Grandchild) :
    (((getChildren people rels pid).flatMap (fun child =>
      (getChildren people rels child.id).map (fun grandchild =>
        (⟨grandchild, .ofDerived DerivedRelationshipType.Grandchild, true⟩ :
          RelationshipEntry))))).countP
      (fun e => e.person.id == gid &&
        e.relationship == AllRelationshipTypes.ofDerived d) = 0 := by
  rw [List.countP_eq_zero]
  intro e he
  obtain ⟨child, hchild, h2⟩ := List.mem_flatMap.mp he
  obtain ⟨gc, hgc, heq⟩ := List.mem_map.mp h2
  subst heq
  simp only [Bool.and_eq_true, beq_iff_eq]
  rintro ⟨-, h2⟩
  injection h2 with h3
  exact hd h3.symm

/-- The grandparent branch emits one Grandparent entry per parent-of-parent
occurrence with the target id. -/
theorem gpPass_countP_eq_sum (people : List Person)
    (rels : List Relationship) (pid gid : String) :
    (((getParents people rels pid).flatMap (fun parent =>
      (getParents people rels parent.id).filterMap (fun grandparent =>
        if (explicitKeys rels pid).contains
            (grandparent.id ++ "-grandparent") then none
        else some (⟨grandparent,
          .ofDerived DerivedRelationshipType.Grandparent, true⟩ :
            RelationshipEntry))))).countP
      (fun e => e.person.id == gid &&
        e.relationship == AllRelationshipTypes.ofDerived
          DerivedRelationshipType.Grandparent) =
    ((getParents people rels pid).map (fun parent =>
      (getParents people rels parent.id).countP
        (fun q => q.id == gid))).sum := by
  simp only [gp_filterMap_eq_map rels pid]
  rw [countP_flatMap_eq]
  apply congrArg List.sum
  apply List.map_congr_left
  intro parent hparent
  rw [List.countP_map]
  apply List.countP_congr
  intro q hq
  simp

/-- The grandchild branch emits one Grandchild entry per child-of-child
occurrence with the target id. -/
theorem gcPass_countP_eq_sum (people : List Person)
    (rels : List Relationship) (pid gid : String) :
    (((getChildren people rels pid).flatMap (fun child =>
      (getChildren people rels child.id).map (fun grandchild =>
        (⟨grandchild, .ofDerived DerivedRelationshipType.Grandchild, true⟩ :
          RelationshipEntry))))).countP
      (fun e => e.person.id == gid &&
        e.relationship == AllRelationshipTypes.ofDerived
          DerivedRelationshipType.Grandchild) =
    ((getChildren people rels pid).map (fun child =>
      (getChildren people rels child.id).countP
        (fun q => q.id == gid))).sum := by
  rw [countP_flatMap_eq]
  apply congrArg List.sum
  apply List.map_congr_left
  intro child hchild
  rw [List.countP_map]
  apply List.countP_congr
  intro q hq
  simp

/-- The number of Grandparent entries carrying a given id equals the number
of parent chains reaching that id. -/
theorem countP_grandparent_eq (people : List Person)
    (rels : List Relationship) (pid gid : String) :
    (getRelationshipsForPerson people rels pid).countP
      (fun e => e.person.id == gid &&
        e.relationship == AllRelationshipTypes.ofDerived
          DerivedRelationshipType.Grandparent) =
    ((getParents people rels pid).map (fun parent =>
      (getParents people rels parent.id).countP
        (fun q => q.id == gid))).sum := by
  unfold getRelationshipsForPerson
  rw [List.countP_append,
    foldl_countP_derived_eq_zero people rels pid gid
      DerivedRelationshipType.Grandparent (by decide), Nat.zero_add]
  simp only [getDerivedRelationships]
  rw [List.countP_append, List.countP_append,
    sibPass_countP_eq_zero people rels pid gid
      DerivedRelationshipType.Grandparent (by decide),
    gcPass_countP_eq_zero people rels pid gid
      DerivedRelationshipType.Grandparent (by decide),
    gpPass_countP_eq_sum people rels pid gid]
  omega

/-- The number of Grandchild entries carrying a given id equals the number
of child chains reaching that id. -/
theorem countP_grandchild_eq (people : List Person)
    (rels : List Relationship) (pid gid : String) :
    (getRelationshipsForPerson people rels pid).countP
      (fun e => e.person.id == gid &&
        e.relationship == AllRelationshipTypes.ofDerived
          DerivedRelationshipType.Grandchild) =
    ((getChildren people rels pid).map (fun child =>
      (getChildren people rels child.id).countP
        (fun q => q.id == gid))).sum := by
  unfold getRelationshipsForPerson
  rw [List.countP_append,
    foldl_countP_derived_eq_zero people rels pid gid
      DerivedRelationshipType.Grandchild (by decide), Nat.zero_add]
  simp only [getDerivedRelationships]
  rw [List.countP_append, List.countP_append,
    sibPass_countP_eq_zero people rels pid gid
      DerivedRelationshipType.Grandchild (by decide),
    gpPass_countP_eq_zero people rels pid gid
      DerivedRelationshipType.Grandchild (by decide),
    gcPass_countP_eq_sum people rels pid gid]
  omega

/-! ## C3 -/

/-- C3 counterexample: a has parents p1 and p2, and g is a parent of both.
The Grandparent triple for g appears twice in a's relationship list — the
suppression key does not prevent the second emission, refuting "exactly
once". -/
theorem grandparent_duplicate_counterexample :
    ((getRelationshipsForPerson
        [⟨"a", "A"⟩, ⟨"p1", "P1"⟩, ⟨"p2", "P2"⟩, ⟨"g", "G"⟩]
        [⟨"e1", "p1", "a", RelationshipType.Parent⟩,
         ⟨"e2", "p2", "a", RelationshipType.Parent⟩,
         ⟨"e3", "g", "p1", RelationshipType.Parent⟩,
         ⟨"e4", "g", "p2", RelationshipType.Parent⟩] "a").countP
      (fun e => e == (⟨⟨"g", "G"⟩,
        .ofDerived DerivedRelationshipType.Grandparent, true⟩ :
          RelationshipEntry)) = 2) ∧
    ¬ ((getRelationshipsForPerson
        [⟨"a", "A"⟩, ⟨"p1", "P1"⟩, ⟨"p2", "P2"⟩, ⟨"g", "G"⟩]
        [⟨"e1", "p1", "a", RelationshipType.Parent⟩,
         ⟨"e2", "p2", "a", RelationshipType.Parent⟩,
         ⟨"e3", "g", "p1", RelationshipType.Parent⟩,
         ⟨"e4", "g", "p2", RelationshipType.Parent⟩] "a").countP
      (fun e => e == (⟨⟨"g", "G"⟩,
        .ofDerived DerivedRelationshipType.Grandparent, true⟩ :
          RelationshipEntry)) = 1) := by
  decide

/-- C3 (amended): a chain of parent-type edges G→P and P→A (all three
people present, ids unique) puts `{G, Grandparent, isDerived:true}` in A's
relationship list — at least once, and in general exactly once per parent
chain: the suppression key compares only against explicitly recorded
relationship keys (which always end in an explicit-kind tag or "-child"),
so it never removes a grandparent and does not deduplicate across
chains. -/
theorem grandparent_transitivity (people : List Person)
    (rels : List Relationship) (A P G : Person) (r1 r2 : Relationship)
    (hnd : (people.map Person.id).Nodup)
    (_hA : A ∈ people) (hP : P ∈ people) (hG : G ∈ people)
    (hr1 : r1 ∈ rels) (h1to : r1.toId = A.id) (h1from : r1.fromId = P.id)
    (h1ty : (r1.type == RelationshipType.Parent ||
      r1.type == RelationshipType.AdoptiveParent ||
      r1.type == RelationshipType.StepParent) = true)
    (hr2 : r2 ∈ rels) (h2to : r2.toId = P.id) (h2from : r2.fromId = G.id)
    (h2ty : (r2.type == RelationshipType.Parent ||
      r2.type == RelationshipType.AdoptiveParent ||
      r2.type == RelationshipType.StepParent) = true) :
    (⟨G, .ofDerived DerivedRelationshipType.Grandparent, true⟩ :
      RelationshipEntry) ∈ getRelationshipsForPerson people rels A.id ∧
    (∀ gid : String, (getRelationshipsForPerson people rels A.id).countP
        (fun e => e.person.id == gid &&
          e.relationship == AllRelationshipTypes.ofDerived
            DerivedRelationshipType.Grandparent) =
      ((getParents people rels A.id).map (fun parent =>
        (getParents people rels parent.id).countP
          (fun q => q.id == gid))).sum) := by
  refine ⟨?_, fun gid => countP_grandparent_eq people rels A.id gid⟩
  have hPmem : P ∈ getParents people rels A.id :=
    mem_getParents hnd hP hr1 h1to h1from h1ty
  have hGmem : G ∈ getParents people rels P.id :=
    mem_getParents hnd hG hr2 h2to h2from h2ty
  unfold getRelationshipsForPerson
  refine List.mem_append_right _ ?_
  simp only [getDerivedRelationships]
  refine List.mem_append_left _ (List.mem_append_right _ ?_)
  refine List.mem_flatMap.mpr ⟨P, hPmem, ?_⟩
  refine List.mem_filterMap.mpr ⟨G, hGmem, ?_⟩
  have hnot : ((explicitKeys rels A.id).contains
      (G.id ++ "-grandparent")) = false :=
    grandparent_key_not_mem rels A.id G.id
  simp only [hnot, Bool.false_eq_true, if_false]

/-- Witness for C3's amended theorem on a concrete three-person chain. -/
theorem grandparent_transitivity_witness :
    (⟨⟨"g", "G"⟩, .ofDerived DerivedRelationshipType.Grandparent, true⟩ :
      RelationshipEntry) ∈
      getRelationshipsForPerson [⟨"a", "A"⟩, ⟨"p", "P"⟩, ⟨"g", "G"⟩]
        [⟨"e1", "p", "a", RelationshipType.Parent⟩,
         ⟨"e2", "g", "p", RelationshipType.Parent⟩] "a" ∧
    (∀ gid : String, (getRelationshipsForPerson
        [⟨"a", "A"⟩, ⟨"p", "P"⟩, ⟨"g", "G"⟩]
        [⟨"e1", "p", "a", RelationshipType.Parent⟩,
         ⟨"e2", "g", "p", RelationshipType.Parent⟩] "a").countP
        (fun e => e.person.id == gid &&
          e.relationship == AllRelationshipTypes.ofDerived
            DerivedRelationshipType.Grandparent) =
      ((getParents [⟨"a", "A"⟩, ⟨"p", "P"⟩, ⟨"g", "G"⟩]
        [⟨"e1", "p", "a", RelationshipType.Parent⟩,
         ⟨"e2", "g", "p", RelationshipType.Parent⟩] "a").map (fun parent =>
        (getParents [⟨"a", "A"⟩, ⟨"p", "P"⟩, ⟨"g", "G"⟩]
          [⟨"e1", "p", "a", RelationshipType.Parent⟩,
           ⟨"e2", "g", "p", RelationshipType.Parent⟩] parent.id).countP
          (fun q => q.id == gid))).sum) :=
  grandparent_transitivity [⟨"a", "A"⟩, ⟨"p", "P"⟩, ⟨"g", "G"⟩]
    [⟨"e1", "p", "a", RelationshipType.Parent⟩,
     ⟨"e2", "g", "p", RelationshipType.Parent⟩]
    ⟨"a", "A"⟩ ⟨"p", "P"⟩ ⟨"g", "G"⟩
    ⟨"e1", "p", "a", RelationshipType.Parent⟩
    ⟨"e2", "g", "p", RelationshipType.Parent⟩
    (by decide) (by decide) (by decide) (by decide) (by decide)
    rfl rfl (by decide) (by decide) rfl rfl (by decide)

/-! ## C5 -/

/-- The values of two distinct list members bound the sum of a mapped
function from below. -/
theorem add_le_sum_map_of_two_mem {α : Type} [DecidableEq α] (f : α → Nat)
    (l : List α) (a b : α) (ha : a ∈ l) (hb : b ∈ l) (hab : a ≠ b) :
    f a + f b ≤ (l.map f).sum := by
  have hperm : l.Perm (a :: l.erase a) := List.perm_cons_erase ha
  have hb' : b ∈ l.erase a := (List.mem_erase_of_ne (Ne.symm hab)).mpr hb
  have hsum : (l.map f).sum = ((a :: l.erase a).map f).sum :=
    (hperm.map f).sum_eq
  rw [hsum, List.map_cons, List.sum_cons]
  exact Nat.add_le_add_left
    (List.single_le_sum (fun x _ => Nat.zero_le x) _
      (List.mem_map_of_mem f hb')) _

/-- C5: the Grandchild count is exactly one per child-of-child path (first
conjunct), so when two distinct children C1, C2 of a person both have GC
as a child, the triple `{GC, Grandchild, isDerived:true}` is present at
least twice — no suppression is applied to grandchildren. -/
theorem grandchild_no_dedup (people : List Person) (rels : List Relationship)
    (aId : String) (C1 C2 GC : Person)
    (h1 : C1 ∈ getChildren people rels aId)
    (h2 : C2 ∈ getChildren people rels aId)
    (hne : C1.id ≠ C2.id)
    (hg1 : GC ∈ getChildren people rels C1.id)
    (hg2 : GC ∈ getChildren people rels C2.id) :
    (∀ gid : String, (getRelationshipsForPerson people rels aId).countP
        (fun e => e.person.id == gid &&
          e.relationship == AllRelationshipTypes.ofDerived
            DerivedRelationshipType.Grandchild) =
      ((getChildren people rels aId).map (fun child =>
        (getChildren people rels child.id).countP
          (fun q => q.id == gid))).sum) ∧
    2 ≤ (getRelationshipsForPerson people rels aId).countP
      (fun e => e.person.id == GC.id &&
        e.relationship == AllRelationshipTypes.ofDerived
          DerivedRelationshipType.Grandchild) := by
  refine ⟨fun gid => countP_grandchild_eq people rels aId gid, ?_⟩
  rw [countP_grandchild_eq]
  have hC : C1 ≠ C2 := fun h => hne (congrArg Person.id h)
  have hs : (getChildren people rels C1.id).countP (fun q => q.id == GC.id) +
      (getChildren people rels C2.id).countP (fun q => q.id == GC.id) ≤
      ((getChildren people rels aId).map (fun child =>
        (getChildren people rels child.id).countP
          (fun q => q.id == GC.id))).sum :=
    add_le_sum_map_of_two_mem
      (fun c => (getChildren people rels c.id).countP (fun q => q.id == GC.id))
      (getChildren people rels aId) C1 C2 h1 h2 hC
  refine le_trans ?_ hs
  have p1 : 0 < (getChildren people rels C1.id).countP
      (fun q => q.id == GC.id) :=
    List.countP_pos_iff.mpr ⟨GC, hg1, by simp⟩
  have p2 : 0 < (getChildren people rels C2.id).countP
      (fun q => q.id == GC.id) :=
    List.countP_pos_iff.mpr ⟨GC, hg2, by simp⟩
  omega

/-- Witness for C5: a has children c1 and c2, who are both parents of gc;
the Grandchild triple count for gc is at least two. -/
theorem grandchild_no_dedup_witness :
    (∀ gid : String, (getRelationshipsForPerson
        [⟨"a", "A"⟩, ⟨"c1", "C1"⟩, ⟨"c2", "C2"⟩, ⟨"gc", "GC"⟩]
        [⟨"e1", "a", "c1", RelationshipType.Parent⟩,
         ⟨"e2", "a", "c2", RelationshipType.Parent⟩,
         ⟨"e3", "c1", "gc", RelationshipType.Parent⟩,
         ⟨"e4", "c2", "gc", RelationshipType.Parent⟩] "a").countP
        (fun e => e.person.id == gid &&
          e.relationship == AllRelationshipTypes.ofDerived
            DerivedRelationshipType.Grandchild) =
      ((getChildren [⟨"a", "A"⟩, ⟨"c1", "C1"⟩, ⟨"c2", "C2"⟩, ⟨"gc", "GC"⟩]
        [⟨"e1", "a", "c1", RelationshipType.Parent⟩,
         ⟨"e2", "a", "c2", RelationshipType.Parent⟩,
         ⟨"e3", "c1", "gc", RelationshipType.Parent⟩,
         ⟨"e4", "c2", "gc", RelationshipType.Parent⟩] "a").map (fun child =>
        (getChildren [⟨"a", "A"⟩, ⟨"c1", "C1"⟩, ⟨"c2", "C2"⟩, ⟨"gc", "GC"⟩]
          [⟨"e1", "a", "c1", RelationshipType.Parent⟩,
           ⟨"e2", "a", "c2", RelationshipType.Parent⟩,
           ⟨"e3", "c1", "gc", RelationshipType.Parent⟩,
           ⟨"e4", "c2", "gc", RelationshipType.Parent⟩] child.id).countP
          (fun q => q.id == gid))).sum) ∧
    2 ≤ (getRelationshipsForPerson
        [⟨"a", "A"⟩, ⟨"c1", "C1"⟩, ⟨"c2", "C2"⟩, ⟨"gc", "GC"⟩]
        [⟨"e1", "a", "c1", RelationshipType.Parent⟩,
         ⟨"e2", "a", "c2", RelationshipType.Parent⟩,
         ⟨"e3", "c1", "gc", RelationshipType.Parent⟩,
         ⟨"e4", "c2", "gc", RelationshipType.Parent⟩] "a").countP
      (fun e => e.person.id == (⟨"gc", "GC"⟩ : Person).id &&
        e.relationship == AllRelationshipTypes.ofDerived
          DerivedRelationshipType.Grandchild) :=
  grandchild_no_dedup
    [⟨"a", "A"⟩, ⟨"c1", "C1"⟩, ⟨"c2", "C2"⟩, ⟨"gc", "GC"⟩]
    [⟨"e1", "a", "c1", RelationshipType.Parent⟩,
     ⟨"e2", "a", "c2", RelationshipType.Parent⟩,
     ⟨"e3", "c1", "gc", RelationshipType.Parent⟩,
     ⟨"e4", "c2", "gc", RelationshipType.Parent⟩] "a"
    ⟨"c1", "C1"⟩ ⟨"c2", "C2"⟩ ⟨"gc", "GC"⟩
    (by decide) (by decide) (by decide) (by decide) (by decide)

/-! ## C10 -/

/-- C10: `getParents` yields one entry per matching parent-type edge from
P (not one per distinct person), and every such occurrence separately
contributes the grandparent entries via the per-chain count formula. -/
theorem getParents_per_edge (people : List Person) (rels : List Relationship)
    (hnd : (people.map Person.id).Nodup) (P : Person) (hP : P ∈ people)
    (aId : String) :
    ((getParents people rels aId).countP (fun q => q == P) =
      (rels.filter (fun r => r.toId == aId && r.fromId == P.id &&
        (r.type == RelationshipType.Parent ||
          r.type == RelationshipType.AdoptiveParent ||
          r.type == RelationshipType.StepParent))).length) ∧
    (∀ gid : String, (getRelationshipsForPerson people rels aId).countP
        (fun e => e.person.id == gid &&
          e.relationship == AllRelationshipTypes.ofDerived
            DerivedRelationshipType.Grandparent) =
      ((getParents people rels aId).map (fun parent =>
        (getParents people rels parent.id).countP
          (fun q => q.id == gid))).sum) := by
  refine ⟨?_, fun gid => countP_grandparent_eq people rels aId gid⟩
  unfold getParents
  induction rels with
  | nil => rfl
  | cons r t ih =>
    by_cases hg : (r.toId == aId &&
        (r.type == RelationshipType.Parent ||
          r.type == RelationshipType.AdoptiveParent ||
          r.type == RelationshipType.StepParent)) = true
    · by_cases hfrom : r.fromId = P.id
      · have hfind : people.find? (fun p => p.id == r.fromId) = some P := by
          rw [hfrom]
          exact find?_id_of_nodup people P hnd hP
        have hp2 : (r.toId == aId && r.fromId == P.id &&
            (r.type == RelationshipType.Parent ||
              r.type == RelationshipType.AdoptiveParent ||
              r.type == RelationshipType.StepParent)) = true := by
          rw [Bool.and_eq_true] at hg
          simp [hg.1, hg.2, hfrom]
        simp [List.filter_cons, hg, hp2, hfind, List.countP_cons, ih]
      · have hfrom' : (r.fromId == P.id) = false :=
          beq_eq_false_iff_ne.mpr hfrom
        cases hfq : people.find? (fun p => p.id == r.fromId) with
        | none => simp [List.filter_cons, hg, hfrom', hfq, ih]
        | some q =>
          have hq : (q == P) = false := by
            refine beq_eq_false_iff_ne.mpr ?_
            intro h
            exact hfrom ((find?_id_eq hfq).symm.trans (congrArg Person.id h))
          simp [List.filter_cons, hg, hfrom', hfq, List.countP_cons, hq, ih]
    · have hg' : (r.toId == aId &&
          (r.type == RelationshipType.Parent ||
            r.type == RelationshipType.AdoptiveParent ||
            r.type == RelationshipType.StepParent)) = false := by
        cases h : (r.toId == aId &&
            (r.type == RelationshipType.Parent ||
              r.type == RelationshipType.AdoptiveParent ||
              r.type == RelationshipType.StepParent))
        · rfl
        · exact absurd h hg
      have hp2 : (r.toId == aId && r.fromId == P.id &&
          (r.type == RelationshipType.Parent ||
            r.type == RelationshipType.AdoptiveParent ||
            r.type == RelationshipType.StepParent)) = false := by
        revert hg'
        cases r.toId == aId <;> cases r.fromId == P.id <;>
          cases (r.type == RelationshipType.Parent ||
            r.type == RelationshipType.AdoptiveParent ||
            r.type == RelationshipType.StepParent) <;> simp
      simp [List.filter_cons, hg', hp2, ih]

/-- Witness for C10: p is joined to a by both a Parent and an
AdoptiveParent edge, and g is a parent of p. -/
theorem getParents_per_edge_witness :
    ((getParents [⟨"a", "A"⟩, ⟨"p", "P"⟩, ⟨"g", "G"⟩]
        [⟨"e1", "p", "a", RelationshipType.Parent⟩,
         ⟨"e2", "p", "a", RelationshipType.AdoptiveParent⟩,
         ⟨"e3", "g", "p", RelationshipType.Parent⟩] "a").countP
      (fun q => q == (⟨"p", "P"⟩ : Person)) =
      (List.filter (fun (r : Relationship) => r.toId == "a" &&
        r.fromId == (⟨"p", "P"⟩ : Person).id &&
        (r.type == RelationshipType.Parent ||
          r.type == RelationshipType.AdoptiveParent ||
          r.type == RelationshipType.StepParent))
        [⟨"e1", "p", "a", RelationshipType.Parent⟩,
         ⟨"e2", "p", "a", RelationshipType.AdoptiveParent⟩,
         ⟨"e3", "g", "p", RelationshipType.Parent⟩]).length) ∧
    (∀ gid : String, (getRelationshipsForPerson
        [⟨"a", "A"⟩, ⟨"p", "P"⟩, ⟨"g", "G"⟩]
        [⟨"e1", "p", "a", RelationshipType.Parent⟩,
         ⟨"e2", "p", "a", RelationshipType.AdoptiveParent⟩,
         ⟨"e3", "g", "p", RelationshipType.Parent⟩] "a").countP
        (fun e => e.person.id == gid &&
          e.relationship == AllRelationshipTypes.ofDerived
            DerivedRelationshipType.Grandparent) =
      ((getParents [⟨"a", "A"⟩, ⟨"p", "P"⟩, ⟨"g", "G"⟩]
        [⟨"e1", "p", "a", RelationshipType.Parent⟩,
         ⟨"e2", "p", "a", RelationshipType.AdoptiveParent⟩,
         ⟨"e3", "g", "p", RelationshipType.Parent⟩] "a").map (fun parent =>
        (getParents [⟨"a", "A"⟩, ⟨"p", "P"⟩, ⟨"g", "G"⟩]
          [⟨"e1", "p", "a", RelationshipType.Parent⟩,
           ⟨"e2", "p", "a", RelationshipType.AdoptiveParent⟩,
           ⟨"e3", "g", "p", RelationshipType.Parent⟩] parent.id).countP
          (fun q => q.id == gid))).sum) :=
  getParents_per_edge [⟨"a", "A"⟩, ⟨"p", "P"⟩, ⟨"g", "G"⟩]
    [⟨"e1", "p", "a", RelationshipType.Parent⟩,
     ⟨"e2", "p", "a", RelationshipType.AdoptiveParent⟩,
     ⟨"e3", "g", "p", RelationshipType.Parent⟩]
    (by decide) ⟨"p", "P"⟩ (by decide) "a"

/-! ## C4 -/

/-- The `fromId`-side kind equals Spouse exactly when the edge kind is
Spouse. -/
theorem explicitFromKind_beq_spouse (t : RelationshipType) :
    (explicitFromKind t == AllRelationshipTypes.ofExplicit
      RelationshipType.Spouse) = (t == RelationshipType.Spouse) := by
  cases t <;> rfl

/-- Explicit-kind tags compare equal to Spouse exactly when the kind is
Spouse. -/
theorem ofExplicit_beq_spouse (t : RelationshipType) :
    (AllRelationshipTypes.ofExplicit t == AllRelationshipTypes.ofExplicit
      RelationshipType.Spouse) = (t == RelationshipType.Spouse) := by
  cases t <;> rfl

/-- An edge that is not a Spouse edge between `aId` and `bId` leaves the
count of `{person-with-bId, Spouse}` entries unchanged. -/
theorem explicitStep_countP_spouse (people : List Person) (aId bId : String)
    (acc : List RelationshipEntry) (r : Relationship)
    (hsb : (r.type == RelationshipType.Spouse &&
      ((r.fromId == aId && r.toId == bId) ||
        (r.fromId == bId && r.toId == aId))) = false) :
    (explicitStep people aId acc r).countP
      (fun e => e.person.id == bId &&
        e.relationship == AllRelationshipTypes.ofExplicit
          RelationshipType.Spouse) =
    acc.countP
      (fun e => e.person.id == bId &&
        e.relationship == AllRelationshipTypes.ofExplicit
          RelationshipType.Spouse) := by
  unfold explicitStep
  split
  · rename_i hfrom
    cases hfind : people.find? (fun p => p.id == r.toId) with
    | none => rfl
    | some person =>
      rw [List.countP_append]
      have hpx : ((person.id == bId) &&
          (explicitFromKind r.type == AllRelationshipTypes.ofExplicit
            RelationshipType.Spouse)) = false := by
        rw [find?_id_eq hfind, explicitFromKind_beq_spouse]
        revert hsb hfrom
        cases r.type == RelationshipType.Spouse <;>
          cases r.fromId == aId <;> cases r.toId == bId <;>
          cases r.fromId == bId <;> cases r.toId == aId <;> simp
      simp [hpx]
  · split
    · rename_i hfrom hto
      cases hfind : people.find? (fun p => p.id == r.fromId) with
      | none => rfl
      | some person =>
        dsimp only
        split
        · rfl
        · rw [List.countP_append]
          have hpx : ((person.id == bId) &&
              (AllRelationshipTypes.ofExplicit r.type ==
                AllRelationshipTypes.ofExplicit
                  RelationshipType.Spouse)) = false := by
            rw [find?_id_eq hfind, ofExplicit_beq_spouse]
            revert hsb hto
            cases r.type == RelationshipType.Spouse <;>
              cases r.fromId == aId <;> cases r.toId == bId <;>
              cases r.fromId == bId <;> cases r.toId == aId <;> simp
          simp [hpx]
    · rfl

/-- Folding over edges none of which is a Spouse edge between `aId` and
`bId` leaves the count unchanged. -/
theorem foldl_countP_spouse_const (people : List Person) (aId bId : String) :
    ∀ (l : List Relationship) (acc : List RelationshipEntry),
      (l.filter (fun r => r.type == RelationshipType.Spouse &&
        ((r.fromId == aId && r.toId == bId) ||
          (r.fromId == bId && r.toId == aId)))).length = 0 →
      (l.foldl (explicitStep people aId) acc).countP
        (fun e => e.person.id == bId &&
          e.relationship == AllRelationshipTypes.ofExplicit
            RelationshipType.Spouse) =
      acc.countP
        (fun e => e.person.id == bId &&
          e.relationship == AllRelationshipTypes.ofExplicit
            RelationshipType.Spouse) := by
  intro l
  induction l with
  | nil => intro acc _; rfl
  | cons r t ih =>
    intro acc h
    rw [List.filter_cons] at h
    by_cases hx : (r.type == RelationshipType.Spouse &&
        ((r.fromId == aId && r.toId == bId) ||
          (r.fromId == bId && r.toId == aId))) = true
    · rw [if_pos hx] at h
      simp at h
    · have hx' : (r.type == RelationshipType.Spouse &&
          ((r.fromId == aId && r.toId == bId) ||
            (r.fromId == bId && r.toId == aId))) = false := by
        cases hxx : (r.type == RelationshipType.Spouse &&
            ((r.fromId == aId && r.toId == bId) ||
              (r.fromId == bId && r.toId == aId)))
        · rfl
        · exact absurd hxx hx
      rw [if_neg hx] at h
      rw [List.foldl_cons,
        ih _ h, explicitStep_countP_spouse people aId bId acc r hx']

/-- Processing the one Spouse edge between `aId` and `bId` pushes exactly
one matching entry (the found person B), in either storage direction; the
`alreadyAdded` dedup does not fire because the count is still zero. -/
theorem explicitStep_spouse_fires (people : List Person) (aId bId : String)
    (B : Person)
    (hfindB : people.find? (fun p => p.id == bId) = some B)
    (hab : (bId == aId) = false)
    (acc : List RelationshipEntry) (r : Relationship)
    (hsb : (r.type == RelationshipType.Spouse &&
      ((r.fromId == aId && r.toId == bId) ||
        (r.fromId == bId && r.toId == aId))) = true)
    (hc : acc.countP
      (fun e => e.person.id == bId &&
        e.relationship == AllRelationshipTypes.ofExplicit
          RelationshipType.Spouse) = 0) :
    (explicitStep people aId acc r).countP
      (fun e => e.person.id == bId &&
        e.relationship == AllRelationshipTypes.ofExplicit
          RelationshipType.Spouse) = 1 ∧
    (⟨B, .ofExplicit RelationshipType.Spouse, false⟩ : RelationshipEntry) ∈
      explicitStep people aId acc r := by
  have hBid : B.id = bId := find?_id_eq hfindB
  rw [Bool.and_eq_true] at hsb
  have hty : r.type = RelationshipType.Spouse := beq_iff_eq.mp hsb.1
  have hor := hsb.2
  rw [Bool.or_eq_true] at hor
  rcases hor with hcase | hcase
  · rw [Bool.and_eq_true] at hcase
    unfold explicitStep
    rw [if_pos hcase.1]
    have hfind2 : people.find? (fun p => p.id == r.toId) = some B := by
      rw [beq_iff_eq.mp hcase.2]
      exact hfindB
    rw [hfind2]
    constructor
    · rw [List.countP_append]
      have hpx : ((B.id == bId) &&
          (explicitFromKind r.type == AllRelationshipTypes.ofExplicit
            RelationshipType.Spouse)) = true := by
        rw [hBid, explicitFromKind_beq_spouse, hty]
        simp
      simp [hc, hpx]
    · rw [hty]
      exact List.mem_append_right _ (List.mem_singleton.mpr rfl)
  · rw [Bool.and_eq_true] at hcase
    unfold explicitStep
    have hfa : (r.fromId == aId) = false := by
      rw [beq_iff_eq.mp hcase.1]
      exact hab
    rw [if_neg (by simp [hfa]), if_pos hcase.2]
    have hfind2 : people.find? (fun p => p.id == r.fromId) = some B := by
      rw [beq_iff_eq.mp hcase.1]
      exact hfindB
    rw [hfind2]
    dsimp only
    have hany : (acc.any (fun q => q.person.id == B.id &&
        q.relationship == AllRelationshipTypes.ofExplicit r.type)) = false := by
      rw [hty, hBid, List.any_eq_false]
      intro q hq
      have h2 := List.countP_eq_zero.mp hc q hq
      simpa using h2
    rw [if_neg (by simp [hany])]
    constructor
    · rw [List.countP_append]
      have hpx : ((B.id == bId) &&
          (AllRelationshipTypes.ofExplicit r.type ==
            AllRelationshipTypes.ofExplicit
              RelationshipType.Spouse)) = true := by
        rw [hBid, ofExplicit_beq_spouse, hty]
        simp
      simp [hc, hpx]
    · rw [hty]
      exact List.mem_append_right _ (List.mem_singleton.mpr rfl)

/-- With exactly one Spouse edge between `aId` and `bId` in the snapshot,
the explicit fold for `aId` carries exactly one matching entry, namely B. -/
theorem foldl_spouse_count_one (people : List Person) (aId bId : String)
    (B : Person)
    (hfindB : people.find? (fun p => p.id == bId) = some B)
    (hab : (bId == aId) = false) :
    ∀ (l : List Relationship) (acc : List RelationshipEntry),
      acc.countP
        (fun e => e.person.id == bId &&
          e.relationship == AllRelationshipTypes.ofExplicit
            RelationshipType.Spouse) = 0 →
      (l.filter (fun r => r.type == RelationshipType.Spouse &&
        ((r.fromId == aId && r.toId == bId) ||
          (r.fromId == bId && r.toId == aId)))).length = 1 →
      (l.foldl (explicitStep people aId) acc).countP
        (fun e => e.person.id == bId &&
          e.relationship == AllRelationshipTypes.ofExplicit
            RelationshipType.Spouse) = 1 ∧
      (⟨B, .ofExplicit RelationshipType.Spouse, false⟩ :
        RelationshipEntry) ∈ l.foldl (explicitStep people aId) acc := by
  intro l
  induction l with
  | nil =>
    intro acc _ h1
    simp at h1
  | cons r t ih =>
    intro acc h0 h1
    rw [List.filter_cons] at h1
    by_cases hx : (r.type == RelationshipType.Spouse &&
        ((r.fromId == aId && r.toId == bId) ||
          (r.fromId == bId && r.toId == aId))) = true
    · rw [if_pos hx, List.length_cons] at h1
      have h1' : (t.filter (fun r => r.type == RelationshipType.Spouse &&
          ((r.fromId == aId && r.toId == bId) ||
            (r.fromId == bId && r.toId == aId)))).length = 0 := by omega
      obtain ⟨hc1, hm1⟩ := explicitStep_spouse_fires people aId bId B hfindB
        hab acc r hx h0
      rw [List.foldl_cons]
      constructor
      · rw [foldl_countP_spouse_const people aId bId t _ h1']
        exact hc1
      · exact foldl_explicit_mem_mono t _ hm1
    · have hx' : (r.type == RelationshipType.Spouse &&
          ((r.fromId == aId && r.toId == bId) ||
            (r.fromId == bId && r.toId == aId))) = false := by
        cases hxx : (r.type == RelationshipType.Spouse &&
            ((r.fromId == aId && r.toId == bId) ||
              (r.fromId == bId && r.toId == aId)))
        · rfl
        · exact absurd hxx hx
      rw [if_neg hx] at h1
      rw [List.foldl_cons]
      refine ih _ ?_ h1
      rw [explicitStep_countP_spouse people aId bId acc r hx']
      exact h0

/-- C4: with exactly one Spouse edge between A and B (stored in one
direction), A's relationship list carries exactly one `{B-id, Spouse}`
entry — the triple `{B, Spouse, isDerived:false}` — and symmetrically for
B; the double-sided scan's dedup prevents a duplicate. -/
theorem spouse_single_counting (people : List Person)
    (rels : List Relationship) (A B : Person)
    (hnd : (people.map Person.id).Nodup) (hA : A ∈ people) (hB : B ∈ people)
    (hAB : A.id ≠ B.id)
    (hone : (rels.filter (fun r => r.type == RelationshipType.Spouse &&
      ((r.fromId == A.id && r.toId == B.id) ||
        (r.fromId == B.id && r.toId == A.id)))).length = 1) :
    ((getRelationshipsForPerson people rels A.id).countP
        (fun e => e.person.id == B.id &&
          e.relationship == AllRelationshipTypes.ofExplicit
            RelationshipType.Spouse) = 1 ∧
      (⟨B, .ofExplicit RelationshipType.Spouse, false⟩ :
        RelationshipEntry) ∈ getRelationshipsForPerson people rels A.id) ∧
    ((getRelationshipsForPerson people rels B.id).countP
        (fun e => e.person.id == A.id &&
          e.relationship == AllRelationshipTypes.ofExplicit
            RelationshipType.Spouse) = 1 ∧
      (⟨A, .ofExplicit RelationshipType.Spouse, false⟩ :
        RelationshipEntry) ∈ getRelationshipsForPerson people rels B.id) := by
  have hfindB : people.find? (fun p => p.id == B.id) = some B :=
    find?_id_of_nodup people B hnd hB
  have hfindA : people.find? (fun p => p.id == A.id) = some A :=
    find?_id_of_nodup people A hnd hA
  have hba : (B.id == A.id) = false := beq_eq_false_iff_ne.mpr (Ne.symm hAB)
  have hab : (A.id == B.id) = false := beq_eq_false_iff_ne.mpr hAB
  constructor
  · obtain ⟨hc, hm⟩ := foldl_spouse_count_one people A.id B.id B hfindB hba
      rels [] rfl hone
    constructor
    · unfold getRelationshipsForPerson
      rw [List.countP_append, hc,
        derived_countP_explicit_eq_zero people rels A.id B.id
          RelationshipType.Spouse]
    · exact List.mem_append_left _ hm
  · have hone' : (rels.filter (fun r =>
        r.type == RelationshipType.Spouse &&
          ((r.fromId == B.id && r.toId == A.id) ||
            (r.fromId == A.id && r.toId == B.id)))).length = 1 := by
      have hpq : ∀ r ∈ rels,
          (r.type == RelationshipType.Spouse &&
            ((r.fromId == B.id && r.toId == A.id) ||
              (r.fromId == A.id && r.toId == B.id))) =
          (r.type == RelationshipType.Spouse &&
            ((r.fromId == A.id && r.toId == B.id) ||
              (r.fromId == B.id && r.toId == A.id))) := by
        intro r _
        rw [Bool.or_comm]
      rw [List.filter_congr hpq]
      exact hone
    obtain ⟨hc, hm⟩ := foldl_spouse_count_one people B.id A.id A hfindA hab
      rels [] rfl hone'
    constructor
    · unfold getRelationshipsForPerson
      rw [List.countP_append, hc,
        derived_countP_explicit_eq_zero people rels B.id A.id
          RelationshipType.Spouse]
    · exact List.mem_append_left _ hm

/-- Witness for C4 on a concrete snapshot with the Spouse edge stored once
as a→b. -/
theorem spouse_single_counting_witness :
    ((getRelationshipsForPerson [⟨"a", "A"⟩, ⟨"b", "B"⟩]
        [⟨"s1", "a", "b", RelationshipType.Spouse⟩] "a").countP
        (fun e => e.person.id == (⟨"b", "B"⟩ : Person).id &&
          e.relationship == AllRelationshipTypes.ofExplicit
            RelationshipType.Spouse) = 1 ∧
      (⟨⟨"b", "B"⟩, .ofExplicit RelationshipType.Spouse, false⟩ :
        RelationshipEntry) ∈ getRelationshipsForPerson
          [⟨"a", "A"⟩, ⟨"b", "B"⟩]
          [⟨"s1", "a", "b", RelationshipType.Spouse⟩] "a") ∧
    ((getRelationshipsForPerson [⟨"a", "A"⟩, ⟨"b", "B"⟩]
        [⟨"s1", "a", "b", RelationshipType.Spouse⟩] "b").countP
        (fun e => e.person.id == (⟨"a", "A"⟩ : Person).id &&
          e.relationship == AllRelationshipTypes.ofExplicit
            RelationshipType.Spouse) = 1 ∧
      (⟨⟨"a", "A"⟩, .ofExplicit RelationshipType.Spouse, false⟩ :
        RelationshipEntry) ∈ getRelationshipsForPerson
          [⟨"a", "A"⟩, ⟨"b", "B"⟩]
          [⟨"s1", "a", "b", RelationshipType.Spouse⟩] "b") :=
  spouse_single_counting [⟨"a", "A"⟩, ⟨"b", "B"⟩]
    [⟨"s1", "a", "b", RelationshipType.Spouse⟩]
    ⟨"a", "A"⟩ ⟨"b", "B"⟩
    (by decide) (by decide) (by decide) (by decide) (by decide)

end FamilyTree
